import Mathlib

/-!
Shallow embedding of `pandexo/engine/run_online.py` (the PandExo online
job-lifecycle manager) and proofs about it.

The program keeps a process-wide registry `BaseHandler.buffer`, a Python
`OrderedDict` mapping a job id (a uuid string with a one-character domain
tag appended) to a `CalculationTask` namedtuple.  Jobs are dispatched to a
`concurrent.futures.ProcessPoolExecutor`, which returns a `Future`; the
handlers inspect the future with `running()`, `done()`, `cancelled()` and
`result()`.  We model the registry as an insertion-ordered association
list, and the future as a phase (pending / running / finished / cancelled)
together with the submitted computation.
-/

namespace PandexoEngine

/-- A Python exception value, reduced to its class name (`kind`) and its
message (`msg`).  This is what `Future.result()` re-raises verbatim. -/
structure PyErr where
  kind : String
  msg : String
deriving DecidableEq, Repr

/-- Phase of a `concurrent.futures.Future`: not yet started, running in a
worker, finished (the worker stored the outcome of the computation, a value
or a raised exception), or cancelled. -/
inductive Phase (V : Type) where
  | pendingPh : Phase V
  | runningPh : Phase V
  | finishedPh (outcome : Except PyErr V) : Phase V
  | cancelledPh : Phase V

/-- Model of the `Future` returned by `executor.submit(wrapper, finaldata)`:
the submitted computation (which the worker runs exactly once) and the
current phase. -/
structure Future (V : Type) where
  compute : Unit → Except PyErr V
  phase : Phase V

/-- Future.running(): true while a worker is executing the call. -/
def Future.runningQ (f : Future V) : Bool :=
  match f.phase with
  | .runningPh => true
  | _ => false

/-- Future.done(): true once the call finished or was cancelled. -/
def Future.doneQ (f : Future V) : Bool :=
  match f.phase with
  | .finishedPh _ => true
  | .cancelledPh => true
  | _ => false

/-- Future.cancelled(): true only for a cancelled call. -/
def Future.cancelledQ (f : Future V) : Bool :=
  match f.phase with
  | .cancelledPh => true
  | _ => false

/-- Modelled from the spec: the repository calls `task.result()` on the
`concurrent.futures.Future`, whose body is standard-library code not under
src/.  Per the spec (§4.2), `result()` blocks until the unit of work
finishes, re-raises whatever failure occurred inside the compute function
as a propagated error, and otherwise returns the computed value.  A pending
or running future blocks until the worker has run the computation once and
stored its outcome. -/
def Future.result (f : Future V) : Except PyErr V :=
  match f.phase with
  | .finishedPh o => o
  | .cancelledPh => Except.error ⟨"CancelledError", ""⟩
  | _ => f.compute ()

/-- Modelled from the spec: one call of `Future.result()` (standard-library
code not under src/), with the state it leaves behind — the outcome, the
future afterwards, and whether the submitted computation had to be run
during the call.  Per the spec (§4.2) the computation runs at most once, by
the worker; repeated calls after the first return the cached value or error
without re-executing. -/
def Future.resultCall (f : Future V) : Except PyErr V × Future V × Bool :=
  match f.phase with
  | .finishedPh o => (o, f, false)
  | .cancelledPh => (Except.error ⟨"CancelledError", ""⟩, f, false)
  | _ => (f.compute (), { f with phase := .finishedPh (f.compute ()) }, true)

/-- The namedtuple
`CalculationTask = namedtuple('CalculationTask', ['id', 'name', 'task', 'cookie', 'count'])`. -/
structure CalculationTask (V : Type) where
  id : String
  name : String
  task : Future V
  cookie : Option String
  count : Nat

/-- `BaseHandler.buffer`, a Python `OrderedDict` keyed by the job id:
an insertion-ordered association list. -/
abbrev Buffer (V : Type) := List (String × CalculationTask V)

/-- `buffer[id] = v` on an `OrderedDict`: an existing key keeps its
position and gets the new value; a fresh key is appended at the end. -/
def odSet (buf : Buffer V) (k : String) (v : CalculationTask V) : Buffer V :=
  if buf.any (fun p => p.1 == k) then
    buf.map (fun p => if p.1 == k then (k, v) else p)
  else
    buf ++ [(k, v)]

/-- `buffer.get(id)`: exact-key lookup, `None` when the key is absent. -/
def odGet (buf : Buffer V) (k : String) : Option (CalculationTask V) :=
  (buf.find? (fun p => p.1 == k)).map (fun p => p.2)

/-- The keys of the buffer, in insertion order. -/
def odKeys (buf : Buffer V) : List String :=
  buf.map (fun p => p.1)

/-- The capacity guard at the end of `_add_task`:
`if len(self.buffer) > 100: self.buffer.popitem(last=False)` — when the
buffer holds more than 100 entries, the single oldest entry is removed. -/
def dropOldestIfOverCap (buf : Buffer V) : Buffer V :=
  if buf.length > 100 then buf.tail else buf

/-- `BaseHandler._add_task(id, name, task)`: stores
`CalculationTask(id=id, name=name, task=task, count=len(self.buffer)+1, cookie=...)`
under `id` (the `count` uses the length before the insertion), then runs
the capacity guard. -/
def _add_task (buf : Buffer V) (id name : String) (task : Future V)
    (cookie : Option String) : Buffer V :=
  dropOldestIfOverCap (odSet buf id ⟨id, name, task, cookie, buf.length + 1⟩)

/-- The dictionary `_get_task_response` / `_get_task_response_hst` build
(the rendered `html` field, a template artifact, is omitted). -/
structure StatusResponse where
  id : String
  name : String
  count : Nat
  state : String
  code : Option Nat
deriving DecidableEq, Repr

/-- `BaseHandler._get_task_response(id)`: `calc_task = self.buffer.get(id)`
followed by `calc_task.task`.  On a missing id, `get` returns `None` and the
attribute access raises `AttributeError` (modelled as the error branch).
Otherwise the state is derived by the chain
`if task.running(): ... elif task.done(): ... elif task.cancelled(): ... else: ...`,
with `code = 202` set only in the running branch. -/
def _get_task_response (buf : Buffer V) (id : String) :
    Except PyErr StatusResponse :=
  match odGet buf id with
  | none =>
      Except.error ⟨"AttributeError", "NoneType object has no attribute task"⟩
  | some calc_task =>
      let task := calc_task.task
      Except.ok <|
        if task.runningQ then
          ⟨id, calc_task.name, calc_task.count, "running", some 202⟩
        else if task.doneQ then
          ⟨id, calc_task.name, calc_task.count, "finished", none⟩
        else if task.cancelledQ then
          ⟨id, calc_task.name, calc_task.count, "cancelled", none⟩
        else
          ⟨id, calc_task.name, calc_task.count, "pending", none⟩

/-- `BaseHandler._get_task_response_hst(id)`: identical to
`_get_task_response` except for the html template it renders
(`calc_rowhst.html` instead of `calc_row.html`), which is omitted here. -/
def _get_task_response_hst (buf : Buffer V) (id : String) :
    Except PyErr StatusResponse :=
  _get_task_response buf id

/-- `BaseHandler._get_task_result(id)`: `self.buffer.get(id)`, attribute
access on the result (raising `AttributeError` on a missing id), then
`task.result()` — which re-raises any exception the compute function
raised. -/
def _get_task_result (buf : Buffer V) (id : String) : Except PyErr V :=
  match odGet buf id with
  | none =>
      Except.error ⟨"AttributeError", "NoneType object has no attribute task"⟩
  | some calc_task => calc_task.task.result

/-- What the serving layer hands to the client for one status request:
either a normal page, or — when the handler body raised — the customized
error page rendered by `BaseHandler.write_error` for an uncaught exception,
which Tornado serves with HTTP status 500.  Either way the process keeps
serving; the exception never escapes the request. -/
inductive Served where
  | page (status : Nat) (body : StatusResponse) : Served
  | errorPage (status : Nat) (e : PyErr) : Served
deriving DecidableEq, Repr

/-- The HTTP status the client sees. -/
def Served.status : Served → Nat
  | .page s _ => s
  | .errorPage s _ => s

/-- `CalculationStatusHandler.get(id)`: calls `_get_task_response(id)` and
writes the response dictionary.  An exception raised inside the handler
(here: the `AttributeError` on an unknown id) is caught by Tornado and
turned into a 500 error page via `BaseHandler.write_error`. -/
def CalculationStatusHandler.get (buf : Buffer V) (id : String) : Served :=
  match _get_task_response buf id with
  | Except.ok r => Served.page 200 r
  | Except.error e => Served.errorPage 500 e

/-- Python `s[len(s)-1]` as used in the dashboard filters: the last
character of the id (none when the string is empty, where Python would
raise `IndexError`; every id the program makes is a uuid plus a tag, hence
nonempty). -/
def lastChar (s : String) : Option Char :=
  s.data.getLast?

/-- The filter in `DashboardHandler.get` / `DashboardHSTHandler.get`:
`[... for id, nt in list(self.buffer.items()) if ((nt.cookie == self.get_cookie("pandexo_user")) & (id[len(id)-1] == tag))]`
keeps, in insertion order, exactly the entries whose stored cookie equals
the caller's cookie and whose id ends in the domain tag. -/
def dashboardFiltered (buf : Buffer V) (user : Option String) (tag : Char) :
    Buffer V :=
  buf.filter (fun p => p.2.cookie == user && lastChar p.1 == some tag)

/-- `DashboardHandler.get`: builds `_get_task_response(id)` for every
matching entry (tag `'e'`, the JWST domain) and renders the list reversed
(`calculations=task_responses[::-1]`). -/
def DashboardHandler.get (buf : Buffer V) (user : Option String) :
    List (Except PyErr StatusResponse) :=
  ((dashboardFiltered buf user 'e').map
    (fun p => _get_task_response buf p.1)).reverse

/-- `DashboardHSTHandler.get`: same with tag `'h'` (the HST domain) and
`_get_task_response_hst`. -/
def DashboardHSTHandler.get (buf : Buffer V) (user : Option String) :
    List (Except PyErr StatusResponse) :=
  ((dashboardFiltered buf user 'h').map
    (fun p => _get_task_response_hst buf p.1)).reverse

/-- Python `name.find(id) != -1` on strings, as lists of characters:
does `pat` occur as a contiguous substring of the argument? -/
def startsWithChars : List Char → List Char → Bool
  | [], _ => true
  | _ :: _, [] => false
  | p :: ps, h :: hs => p == h && startsWithChars ps hs

/-- Occurrence of `pat` anywhere in the haystack (Python `hay.find(pat) != -1`). -/
def occursChars (pat : List Char) : List Char → Bool
  | [] => startsWithChars pat []
  | c :: hs => startsWithChars pat (c :: hs) || occursChars pat hs

/-- `name.find(id) != -1` for strings. -/
def pyFindIn (hay pat : String) : Bool :=
  occursChars pat.data hay.data

/-- The cleanup loop the download handlers and the JWST view handler run
over `os.listdir(__TEMP__)`:
`for i in allfiles: if i.find(id) != -1: os.remove(...)` — every file whose
name contains the id as a substring is deleted.  The temp directory is
modelled as its list of file names. -/
def sweepFiles (files : List String) (id : String) : List String :=
  files.filter (fun f => ! pyFindIn f id)

/-- `CalculationDownloadHandler.get(id)`: serializes the result into
`"ETC-calculation" + id + ".p"` in the temp directory (creating the file if
it is not already listed), streams it, then runs the cleanup loop.  Only
the effect on the temp directory is modelled. -/
def CalculationDownloadHandler.get (files : List String) (id : String) :
    List String :=
  let fname := "ETC-calculation" ++ id ++ ".p"
  let files1 := if files.contains fname then files else files ++ [fname]
  sweepFiles files1 id

/-- `CalculationViewHandler.get(id)` (JWST results view): renders the Bokeh
components and runs the same cleanup loop over the temp directory. -/
def CalculationViewHandler.get (files : List String) (id : String) :
    List String :=
  sweepFiles files id

/-- `CalculationViewHSTHandler.get(id)` (HST results view): renders
`viewhst.html` and returns; it contains no cleanup loop, so the temp
directory is left unchanged. -/
def CalculationViewHSTHandler.get (files : List String) (_id : String) :
    List String :=
  files

/-- One submission as seen by `_add_task`: the generated id, the
`calcName` form field, the dispatched future and the caller's cookie. -/
structure Submission (V : Type) where
  id : String
  name : String
  task : Future V
  cookie : Option String

/-- A sequence of submissions folded through `_add_task`. -/
def submitAll (buf : Buffer V) (subs : List (Submission V)) : Buffer V :=
  subs.foldl (fun b s => _add_task b s.id s.name s.task s.cookie) buf

/-- The entries a run of fresh submissions appends when no eviction fires:
counts are assigned `n + 1, n + 2, ...` from the registry size `n` at the
first of them. -/
def mkRecords : Nat → List (Submission V) → Buffer V
  | _, [] => []
  | n, s :: rest =>
      (s.id, ⟨s.id, s.name, s.task, s.cookie, n + 1⟩) :: mkRecords (n + 1) rest

theorem length_mkRecords (subs : List (Submission V)) :
    ∀ n, (mkRecords n subs).length = subs.length := by
  induction subs with
  | nil => intro n; rfl
  | cons s rest ih => intro n; simp [mkRecords, ih]

theorem odKeys_mkRecords (subs : List (Submission V)) :
    ∀ n, odKeys (mkRecords n subs) = subs.map (fun s => s.id) := by
  induction subs with
  | nil => intro n; rfl
  | cons s rest ih => intro n; simp [mkRecords, odKeys] at ih ⊢; exact ih (n + 1)

theorem odKeys_append (buf₁ buf₂ : Buffer V) :
    odKeys (buf₁ ++ buf₂) = odKeys buf₁ ++ odKeys buf₂ :=
  List.map_append _ _ _

theorem any_key_iff_mem (buf : Buffer V) (k : String) :
    buf.any (fun p => p.1 == k) = true ↔ k ∈ odKeys buf := by
  rw [List.any_eq_true]
  constructor
  · rintro ⟨p, hp, hpk⟩
    have hk : p.1 = k := by simpa using hpk
    exact hk ▸ List.mem_map.2 ⟨p, hp, rfl⟩
  · intro hk
    rcases List.mem_map.1 hk with ⟨p, hp, hpk⟩
    exact ⟨p, hp, by simp [hpk]⟩

theorem odSet_fresh (buf : Buffer V) (k : String) (v : CalculationTask V)
    (h : k ∉ odKeys buf) : odSet buf k v = buf ++ [(k, v)] := by
  unfold odSet
  rw [if_neg]
  intro hc
  exact h ((any_key_iff_mem buf k).1 hc)

theorem length_odSet (buf : Buffer V) (k : String) (v : CalculationTask V) :
    (odSet buf k v).length = buf.length ∨
      (odSet buf k v).length = buf.length + 1 := by
  unfold odSet
  split
  · left; simp
  · right; simp

theorem odGet_eq_none_iff (buf : Buffer V) (k : String) :
    odGet buf k = none ↔ k ∉ odKeys buf := by
  unfold odGet
  rw [Option.map_eq_none']
  rw [List.find?_eq_none]
  constructor
  · intro h hk
    rcases List.mem_map.1 hk with ⟨p, hp, hpk⟩
    exact h p hp (by simp [hpk])
  · intro h p hp hpk
    have hk : p.1 = k := by simpa using hpk
    exact h (hk ▸ List.mem_map.2 ⟨p, hp, rfl⟩)

theorem find?_append_of_none {α : Type} {p : α → Bool} (l₁ l₂ : List α)
    (h : l₁.find? p = none) : (l₁ ++ l₂).find? p = l₂.find? p := by
  induction l₁ with
  | nil => rfl
  | cons a l ih =>
      rw [List.find?_cons] at h
      rcases hpa : p a with _ | _
      · rw [List.cons_append, List.find?_cons, hpa]
        exact ih (by rwa [hpa] at h)
      · rw [hpa] at h; exact absurd h (by simp)

theorem find?_map_replace (k : String) (v : CalculationTask V) :
    ∀ buf : Buffer V, buf.any (fun p => p.1 == k) = true →
      (buf.map (fun p => if p.1 == k then (k, v) else p)).find?
          (fun p => p.1 == k) = some (k, v) := by
  intro buf
  induction buf with
  | nil => intro h; simp at h
  | cons a l ih =>
      intro h
      rcases hak : (a.1 == k) with _ | _
      · have hl : l.any (fun p => p.1 == k) = true := by
          simp [List.any_cons, hak] at h; simpa using h
        rw [List.map_cons, List.find?_cons, if_neg (by simp [hak]), hak]
        exact ih hl
      · rw [List.map_cons, List.find?_cons, if_pos (by simp [hak])]
        simp

theorem odGet_odSet_self (buf : Buffer V) (k : String)
    (v : CalculationTask V) : odGet (odSet buf k v) k = some v := by
  unfold odSet
  rcases h : buf.any (fun p => p.1 == k) with _ | _
  · rw [if_neg (by simp [h])]
    unfold odGet
    rw [find?_append_of_none _ _ (by
      rw [List.find?_eq_none]
      intro x hx hpx
      have : x.1 = k := by simpa using hpx
      have : buf.any (fun p => p.1 == k) = true := by
        rw [List.any_eq_true]; exact ⟨x, hx, by simpa using this⟩
      rw [h] at this; cases this)]
    simp [List.find?_cons]
  · rw [if_pos (by simp [h])]
    unfold odGet
    rw [find?_map_replace k v buf h]
    rfl

theorem length_dropOldestIfOverCap (buf : Buffer V) :
    (dropOldestIfOverCap buf).length =
      if buf.length > 100 then buf.length - 1 else buf.length := by
  unfold dropOldestIfOverCap
  split <;> simp [List.length_tail]

theorem length_add_task_le (buf : Buffer V) (id name : String)
    (task : Future V) (cookie : Option String) (h : buf.length ≤ 100) :
    (_add_task buf id name task cookie).length ≤ 100 := by
  unfold _add_task
  rw [length_dropOldestIfOverCap]
  rcases length_odSet buf id ⟨id, name, task, cookie, buf.length + 1⟩ with
    hl | hl <;> rw [hl] <;> split <;> omega

theorem length_submitAll_le (subs : List (Submission V)) :
    ∀ buf : Buffer V, buf.length ≤ 100 →
      (submitAll buf subs).length ≤ 100 := by
  induction subs with
  | nil => intro buf h; exact h
  | cons s rest ih =>
      intro buf h
      exact ih _ (length_add_task_le buf s.id s.name s.task s.cookie h)

theorem add_task_fresh_no_evict (buf : Buffer V) (s : Submission V)
    (hfresh : s.id ∉ odKeys buf) (hlen : buf.length + 1 ≤ 100) :
    _add_task buf s.id s.name s.task s.cookie =
      buf ++ [(s.id, ⟨s.id, s.name, s.task, s.cookie, buf.length + 1⟩)] := by
  unfold _add_task dropOldestIfOverCap
  rw [odSet_fresh buf s.id _ hfresh,
    if_neg (by simp only [List.length_append, List.length_singleton]; omega)]

theorem add_task_evicts_oldest (buf : Buffer V) (id name : String)
    (task : Future V) (cookie : Option String)
    (hlen : buf.length = 100) (hfresh : id ∉ odKeys buf) :
    _add_task buf id name task cookie =
      buf.tail ++ [(id, ⟨id, name, task, cookie, 101⟩)] := by
  unfold _add_task dropOldestIfOverCap
  rw [odSet_fresh buf id _ hfresh, if_pos (by simp [hlen])]
  cases buf with
  | nil => simp at hlen
  | cons b bs => simp [hlen]

theorem submitAll_no_evict :
    ∀ (subs : List (Submission V)) (buf : Buffer V),
      (∀ s ∈ subs, s.id ∉ odKeys buf) →
      (subs.map (fun s => s.id)).Nodup →
      buf.length + subs.length ≤ 100 →
      submitAll buf subs = buf ++ mkRecords buf.length subs := by
  intro subs
  induction subs with
  | nil => intro buf _ _ _; simp [submitAll, mkRecords]
  | cons s rest ih =>
      intro buf hfresh hnd hlen
      rw [List.map_cons] at hnd
      have hhead : s.id ∉ rest.map (fun s => s.id) := (List.nodup_cons.1 hnd).1
      have hnd' : (rest.map (fun s => s.id)).Nodup := (List.nodup_cons.1 hnd).2
      have hstep := add_task_fresh_no_evict buf s (hfresh s (List.mem_cons_self s rest))
        (by rw [List.length_cons] at hlen; omega)
      have hsub : submitAll buf (s :: rest) =
          submitAll (buf ++
            [(s.id, ⟨s.id, s.name, s.task, s.cookie, buf.length + 1⟩)]) rest := by
        simp only [submitAll, List.foldl_cons, hstep]
      rw [hsub]
      have hfresh' : ∀ r ∈ rest,
          r.id ∉ odKeys (buf ++
            [(s.id, ⟨s.id, s.name, s.task, s.cookie, buf.length + 1⟩)]) := by
        intro r hr
        rw [odKeys_append]
        intro hmem
        rcases List.mem_append.1 hmem with hm | hm
        · exact hfresh r (List.mem_cons_of_mem s hr) hm
        · have hrs : r.id = s.id := by simpa [odKeys] using hm
          exact hhead (hrs ▸ List.mem_map.2 ⟨r, hr, rfl⟩)
      have hlen' : ∀ e : String × CalculationTask V,
          (buf ++ [e]).length + rest.length ≤ 100 := by
        intro e
        rw [List.length_cons] at hlen
        rw [List.length_append, List.length_singleton]
        omega
      rw [ih _ hfresh' hnd' (hlen' _)]
      rw [List.length_append, List.length_singleton]
      simp [mkRecords]

theorem submitAll_append (buf : Buffer V) (l₁ l₂ : List (Submission V)) :
    submitAll buf (l₁ ++ l₂) = submitAll (submitAll buf l₁) l₂ := by
  simp [submitAll, List.foldl_append]

/-- C1: for every sequence of submissions the registry holds at most 100
records after every insertion; an insertion past capacity silently evicts
exactly one record, the oldest in insertion order; and after 101
submissions with fresh ids the registry size is 100 and the id of the
first-submitted job is no longer present. -/
theorem registry_capacity_and_fifo_eviction (V : Type)
    (subs : List (Submission V))
    (hnd : (subs.map (fun s => s.id)).Nodup) (hlen : subs.length = 101) :
    (∀ seq : List (Submission V),
        (submitAll ([] : Buffer V) seq).length ≤ 100) ∧
    (∀ (buf : Buffer V) (id name : String) (task : Future V)
        (cookie : Option String), buf.length = 100 → id ∉ odKeys buf →
        _add_task buf id name task cookie =
          buf.tail ++ [(id, ⟨id, name, task, cookie, 101⟩)]) ∧
    (submitAll ([] : Buffer V) subs).length = 100 ∧
    odGet (submitAll ([] : Buffer V) subs)
      ((subs.map (fun s => s.id)).headI) = none := by
  refine ⟨fun seq => length_submitAll_le seq [] (by simp),
      fun buf id name task cookie h1 h2 =>
        add_task_evicts_oldest buf id name task cookie h1 h2, ?_⟩
  cases subs with
  | nil => simp at hlen
  | cons s₀ rest =>
    rw [List.length_cons] at hlen
    have hrne : rest ≠ [] := by
      intro h; rw [h] at hlen; simp at hlen
    obtain ⟨rest', lst, hrest⟩ : ∃ rest' lst, rest = rest' ++ [lst] :=
      ⟨rest.dropLast, rest.getLast hrne,
        (List.dropLast_append_getLast hrne).symm⟩
    have hrest'len : rest'.length = 99 := by
      rw [hrest, List.length_append, List.length_singleton] at hlen; omega
    rw [List.map_cons] at hnd
    have hs₀ : s₀.id ∉ rest.map (fun s => s.id) := (List.nodup_cons.1 hnd).1
    have hndrest : (rest.map (fun s => s.id)).Nodup := (List.nodup_cons.1 hnd).2
    have hndsplit := hndrest
    rw [hrest, List.map_append] at hndsplit
    have hdisj := List.nodup_append.1 hndsplit
    -- the first submission lands in an empty registry
    have hb1 : _add_task ([] : Buffer V) s₀.id s₀.name s₀.task s₀.cookie =
        [(s₀.id, ⟨s₀.id, s₀.name, s₀.task, s₀.cookie, 1⟩)] := by
      rw [add_task_fresh_no_evict ([] : Buffer V) s₀ (by simp [odKeys]) (by simp)]
      rfl
    -- the next 99 submissions append without eviction
    have hfresh' : ∀ r ∈ rest', r.id ∉ odKeys
        ([(s₀.id, ⟨s₀.id, s₀.name, s₀.task, s₀.cookie, 1⟩)] : Buffer V) := by
      intro r hr hmem
      have hrid : r.id = s₀.id := by simpa [odKeys] using hmem
      exact hs₀ (hrid ▸ List.mem_map.2
        ⟨r, by rw [hrest]; exact List.mem_append_left _ hr, rfl⟩)
    have hBeq := submitAll_no_evict rest'
      [(s₀.id, ⟨s₀.id, s₀.name, s₀.task, s₀.cookie, 1⟩)] hfresh' hdisj.1
      (by simp [hrest'len])
    -- keys and length of the registry after 100 submissions
    have hkeysB : odKeys
        (([(s₀.id, ⟨s₀.id, s₀.name, s₀.task, s₀.cookie, 1⟩)] : Buffer V) ++
          mkRecords ([(s₀.id, ⟨s₀.id, s₀.name, s₀.task, s₀.cookie, 1⟩)] :
            Buffer V).length rest') =
        s₀.id :: rest'.map (fun s => s.id) := by
      rw [odKeys_append, odKeys_mkRecords]
      rfl
    have hlenB : (([(s₀.id, ⟨s₀.id, s₀.name, s₀.task, s₀.cookie, 1⟩)] :
        Buffer V) ++
          mkRecords ([(s₀.id, ⟨s₀.id, s₀.name, s₀.task, s₀.cookie, 1⟩)] :
            Buffer V).length rest').length = 100 := by
      rw [List.length_append, length_mkRecords]
      simp [hrest'len]
    -- the 101st submission evicts the oldest record
    have hfreshlst : lst.id ∉ odKeys
        (([(s₀.id, ⟨s₀.id, s₀.name, s₀.task, s₀.cookie, 1⟩)] : Buffer V) ++
          mkRecords ([(s₀.id, ⟨s₀.id, s₀.name, s₀.task, s₀.cookie, 1⟩)] :
            Buffer V).length rest') := by
      rw [hkeysB]
      intro hmem
      rcases List.mem_cons.1 hmem with hm | hm
      · exact hs₀ (hm ▸ List.mem_map.2
          ⟨lst, by rw [hrest]; exact List.mem_append_right _ (by simp), rfl⟩)
      · exact hdisj.2.2 hm (by simp)
    have hfold : submitAll ([] : Buffer V) (s₀ :: rest) =
        _add_task
          (([(s₀.id, ⟨s₀.id, s₀.name, s₀.task, s₀.cookie, 1⟩)] : Buffer V) ++
            mkRecords ([(s₀.id, ⟨s₀.id, s₀.name, s₀.task, s₀.cookie, 1⟩)] :
              Buffer V).length rest')
          lst.id lst.name lst.task lst.cookie := by
      have : s₀ :: rest = (s₀ :: rest') ++ [lst] := by rw [hrest]; rfl
      rw [this, submitAll_append]
      have hfirst : submitAll ([] : Buffer V) (s₀ :: rest') =
          submitAll [(s₀.id, ⟨s₀.id, s₀.name, s₀.task, s₀.cookie, 1⟩)] rest' := by
        simp only [submitAll, List.foldl_cons]
        rw [hb1]
      rw [hfirst, hBeq]
      simp [submitAll]
    have hevict := add_task_evicts_oldest
      (([(s₀.id, ⟨s₀.id, s₀.name, s₀.task, s₀.cookie, 1⟩)] : Buffer V) ++
        mkRecords ([(s₀.id, ⟨s₀.id, s₀.name, s₀.task, s₀.cookie, 1⟩)] :
          Buffer V).length rest')
      lst.id lst.name lst.task lst.cookie hlenB hfreshlst
    rw [hfold, hevict]
    have htail : (([(s₀.id, ⟨s₀.id, s₀.name, s₀.task, s₀.cookie, 1⟩)] :
        Buffer V) ++
          mkRecords ([(s₀.id, ⟨s₀.id, s₀.name, s₀.task, s₀.cookie, 1⟩)] :
            Buffer V).length rest').tail =
        mkRecords ([(s₀.id, ⟨s₀.id, s₀.name, s₀.task, s₀.cookie, 1⟩)] :
          Buffer V).length rest' := by
      rfl
    rw [htail]
    constructor
    · rw [List.length_append, length_mkRecords]
      simp [hrest'len]
    · rw [odGet_eq_none_iff, odKeys_append, odKeys_mkRecords]
      have hhead : ((s₀ :: rest).map (fun s => s.id)).headI = s₀.id := rfl
      rw [hhead]
      intro hmem
      rcases List.mem_append.1 hmem with hm | hm
      · exact hs₀ (by rw [hrest, List.map_append]; exact List.mem_append_left _ hm)
      · have : s₀.id = lst.id := by simpa [odKeys] using hm
        exact hs₀ (this ▸ List.mem_map.2
          ⟨lst, by rw [hrest]; exact List.mem_append_right _ (by simp), rfl⟩)

/-- A trivial dispatched future used to build concrete registries. -/
def unitFuture : Future Unit :=
  ⟨fun _ => Except.ok (), Phase.pendingPh⟩

/-- A concrete run of 101 submissions with pairwise distinct ids (the id of
submission `n` is the string of `n + 1` copies of `'a'`). -/
def capacityWitnessSubs : List (Submission Unit) :=
  (List.range 101).map (fun n =>
    ⟨String.mk (List.replicate (n + 1) 'a'), "job", unitFuture, none⟩)

theorem capacityWitnessSubs_nodup :
    (capacityWitnessSubs.map (fun s => s.id)).Nodup := by
  rw [capacityWitnessSubs, List.map_map]
  refine List.Nodup.map ?_ (List.nodup_range 101)
  intro a b h
  simp only [Function.comp] at h
  have h2 := congrArg (fun s : String => s.data.length) h
  simp only [List.length_replicate] at h2
  omega

theorem capacityWitnessSubs_length : capacityWitnessSubs.length = 101 := by
  rw [capacityWitnessSubs]
  simp

/-- Witness for C1: the capacity/eviction theorem applied to the concrete
run of 101 distinct submissions. -/
theorem registry_capacity_and_fifo_eviction_witness :
    ((capacityWitnessSubs.map (fun s => s.id)).Nodup ∧
      capacityWitnessSubs.length = 101) ∧
    ((submitAll ([] : Buffer Unit) capacityWitnessSubs).length = 100 ∧
      odGet (submitAll ([] : Buffer Unit) capacityWitnessSubs)
        ((capacityWitnessSubs.map (fun s => s.id)).headI) = none) :=
  ⟨⟨capacityWitnessSubs_nodup, capacityWitnessSubs_length⟩,
    (registry_capacity_and_fifo_eviction Unit capacityWitnessSubs
      capacityWitnessSubs_nodup capacityWitnessSubs_length).2.2⟩

theorem length_odSet_present (buf : Buffer V) (k : String)
    (v : CalculationTask V) (h : buf.any (fun p => p.1 == k) = true) :
    (odSet buf k v).length = buf.length := by
  unfold odSet
  rw [if_pos h]
  simp

theorem find?_key_eq_none (buf : Buffer V) (k : String) (h : k ∉ odKeys buf) :
    buf.find? (fun p => p.1 == k) = none := by
  rw [List.find?_eq_none]
  intro x hx hpx
  have hxk : x.1 = k := by simpa using hpx
  exact h (hxk ▸ List.mem_map.2 ⟨x, hx, rfl⟩)

theorem odGet_append_self (buf : Buffer V) (k : String)
    (v : CalculationTask V) (h : k ∉ odKeys buf) :
    odGet (buf ++ [(k, v)]) k = some v := by
  unfold odGet
  rw [find?_append_of_none _ _ (find?_key_eq_none buf k h)]
  simp [List.find?_cons]

/-- C6: the record stored by `_add_task` carries `count` equal to the
registry size immediately before the insertion plus one, and eviction never
rewrites a surviving record: every entry of the buffer after the capacity
guard is literally an entry of the buffer before it. -/
theorem sequence_assigned_at_insertion (V : Type) (buf : Buffer V)
    (id name : String) (task : Future V) (cookie : Option String)
    (hcap : buf.length ≤ 100) :
    odGet (_add_task buf id name task cookie) id =
      some ⟨id, name, task, cookie, buf.length + 1⟩ ∧
    ∀ e ∈ _add_task buf id name task cookie,
      e ∈ odSet buf id ⟨id, name, task, cookie, buf.length + 1⟩ := by
  constructor
  · rcases hany : buf.any (fun p => p.1 == id) with _ | _
    · have hnm : id ∉ odKeys buf := fun hm => by
        have h2 := (any_key_iff_mem buf id).2 hm
        rw [hany] at h2
        cases h2
      by_cases hfull : buf.length = 100
      · rw [hfull, add_task_evicts_oldest buf id name task cookie hfull hnm]
        refine odGet_append_self _ id _ (fun hm => ?_)
        rcases List.mem_map.1 hm with ⟨p, hp, hpk⟩
        exact hnm (hpk ▸ List.mem_map.2 ⟨p, List.mem_of_mem_tail hp, rfl⟩)
      · have hle : buf.length + 1 ≤ 100 := by omega
        rw [add_task_fresh_no_evict buf ⟨id, name, task, cookie⟩ hnm hle]
        exact odGet_append_self buf id _ hnm
    · unfold _add_task dropOldestIfOverCap
      rw [if_neg (by rw [length_odSet_present buf id _ hany]; omega)]
      exact odGet_odSet_self buf id _
  · intro e he
    unfold _add_task dropOldestIfOverCap at he
    by_cases hev :
        (odSet buf id ⟨id, name, task, cookie, buf.length + 1⟩).length > 100
    · rw [if_pos hev] at he
      exact List.mem_of_mem_tail he
    · rw [if_neg hev] at he
      exact he

/-- A one-entry concrete registry. -/
def smallBuf : Buffer Unit :=
  [("a", ⟨"a", "first", unitFuture, none, 1⟩)]

/-- Witness for C6: inserting into a one-entry registry stores the new
record with `count = 2` and leaves every surviving entry untouched. -/
theorem sequence_assigned_at_insertion_witness :
    smallBuf.length ≤ 100 ∧
    (odGet (_add_task smallBuf "b" "second" unitFuture none) "b" =
        some ⟨"b", "second", unitFuture, none, smallBuf.length + 1⟩ ∧
      ∀ e ∈ _add_task smallBuf "b" "second" unitFuture none,
        e ∈ odSet smallBuf "b"
          ⟨"b", "second", unitFuture, none, smallBuf.length + 1⟩) :=
  ⟨by decide,
    sequence_assigned_at_insertion Unit smallBuf "b" "second" unitFuture none
      (by decide)⟩

theorem odGet_isSome_iff_mem (buf : Buffer V) (k : String) :
    (odGet buf k).isSome = true ↔ k ∈ odKeys buf := by
  rw [Option.isSome_iff_ne_none, Ne, odGet_eq_none_iff, not_not]

/-- C2 counterexample: a status poll for an id absent from the registry is
not surfaced as a NotFound client error — `buffer.get` returns `None`, the
attribute access raises, and the caller receives the 500 error page (a
server error, outside the 4xx client-error range). -/
theorem status_unknown_id_counterexample :
    odGet ([] : Buffer Unit) "missing" = none ∧
    CalculationStatusHandler.get ([] : Buffer Unit) "missing" =
      Served.errorPage 500
        ⟨"AttributeError", "NoneType object has no attribute task"⟩ ∧
    ¬(400 ≤ (CalculationStatusHandler.get ([] : Buffer Unit) "missing").status ∧
      (CalculationStatusHandler.get ([] : Buffer Unit) "missing").status < 500) := by
  refine ⟨rfl, rfl, ?_⟩
  intro h
  have h500 : (CalculationStatusHandler.get ([] : Buffer Unit) "missing").status
      = 500 := rfl
  rw [h500] at h
  omega

/-- C2 (amended): a status poll for an unknown id makes `_get_task_response`
raise `AttributeError` (from the `None` returned by the exact-key lookup),
which the serving layer turns into a rendered 500 error page rather than a
process crash; the registry lookup itself is exact-key. -/
theorem status_unknown_id_is_500 (V : Type) (buf : Buffer V) (id : String)
    (h : odGet buf id = none) :
    _get_task_response buf id =
      Except.error ⟨"AttributeError", "NoneType object has no attribute task"⟩ ∧
    CalculationStatusHandler.get buf id =
      Served.errorPage 500
        ⟨"AttributeError", "NoneType object has no attribute task"⟩ ∧
    (∀ k, (odGet buf k).isSome = true ↔ k ∈ odKeys buf) := by
  refine ⟨by simp [_get_task_response, h], ?_, fun k => odGet_isSome_iff_mem buf k⟩
  simp [CalculationStatusHandler.get, _get_task_response, h]

/-- Witness for C2 (amended): the empty registry and an unknown id. -/
theorem status_unknown_id_is_500_witness :
    odGet ([] : Buffer Unit) "nope" = none ∧
    (_get_task_response ([] : Buffer Unit) "nope" =
        Except.error ⟨"AttributeError", "NoneType object has no attribute task"⟩ ∧
      CalculationStatusHandler.get ([] : Buffer Unit) "nope" =
        Served.errorPage 500
          ⟨"AttributeError", "NoneType object has no attribute task"⟩ ∧
      (∀ k, (odGet ([] : Buffer Unit) k).isSome = true ↔
        k ∈ odKeys ([] : Buffer Unit))) :=
  ⟨rfl, status_unknown_id_is_500 Unit [] "nope" rfl⟩

/-- A future whose compute function has already raised
`ValueError("bad target")` inside the worker, which stored the outcome. -/
def failedFuture : Future Unit :=
  ⟨fun _ => Except.error ⟨"ValueError", "bad target"⟩,
    Phase.finishedPh (Except.error ⟨"ValueError", "bad target"⟩)⟩

/-- A registry holding one job whose compute function raised. -/
def failedBuf : Buffer Unit :=
  [("fe", ⟨"fe", "boom", failedFuture, none, 1⟩)]

/-- C3: polling a job whose compute function has already raised — and on
which result() has not been demanded — never reports the Failed state: the
projection yields a snapshot whose state is not "failed". -/
theorem poll_never_failed_before_result (V : Type) (buf : Buffer V)
    (id : String) (ct : CalculationTask V) (e : PyErr)
    (h1 : odGet buf id = some ct)
    (h2 : ct.task.phase = Phase.finishedPh (Except.error e)) :
    ∃ r, _get_task_response buf id = Except.ok r ∧ r.state ≠ "failed" := by
  refine ⟨⟨id, ct.name, ct.count, "finished", none⟩, ?_, by simp⟩
  simp [_get_task_response, h1, Future.runningQ, Future.doneQ, h2]

/-- Witness for C3: a concrete registry holding a job that raised. -/
theorem poll_never_failed_before_result_witness :
    (odGet failedBuf "fe" = some ⟨"fe", "boom", failedFuture, none, 1⟩ ∧
      failedFuture.phase =
        Phase.finishedPh (Except.error ⟨"ValueError", "bad target"⟩)) ∧
    (∃ r, _get_task_response failedBuf "fe" = Except.ok r ∧
      r.state ≠ "failed") :=
  ⟨⟨rfl, rfl⟩,
    poll_never_failed_before_result Unit failedBuf "fe"
      ⟨"fe", "boom", failedFuture, none, 1⟩ ⟨"ValueError", "bad target"⟩
      rfl rfl⟩

/-- C4: the snapshot derives its state in precedence order — running if the
handle reports in-progress, else finished if it reports done, else
cancelled, else pending — and carries the advisory code 202 exactly when
the state is "running". -/
theorem status_projection_precedence (V : Type) (buf : Buffer V)
    (id : String) (ct : CalculationTask V) (h : odGet buf id = some ct) :
    _get_task_response buf id = Except.ok
      ⟨id, ct.name, ct.count,
        (if ct.task.runningQ then "running"
          else if ct.task.doneQ then "finished"
          else if ct.task.cancelledQ then "cancelled" else "pending"),
        (if ct.task.runningQ then some 202 else none)⟩ ∧
    ∀ r, _get_task_response buf id = Except.ok r →
      (r.code = some 202 ↔ r.state = "running") := by
  constructor
  · simp only [_get_task_response, h]
    rcases hr : ct.task.runningQ with _ | _ <;>
      rcases hd : ct.task.doneQ with _ | _ <;>
        rcases hc : ct.task.cancelledQ with _ | _ <;> simp [hr, hd, hc]
  · intro r hrq
    simp only [_get_task_response, h] at hrq
    rcases hr : ct.task.runningQ with _ | _ <;>
      rcases hd : ct.task.doneQ with _ | _ <;>
        rcases hc : ct.task.cancelledQ with _ | _ <;>
          simp [hr, hd, hc] at hrq <;> subst hrq <;> simp

/-- Witness for C4: the one-entry registry with a pending job. -/
theorem status_projection_precedence_witness :
    odGet smallBuf "a" = some ⟨"a", "first", unitFuture, none, 1⟩ ∧
    (_get_task_response smallBuf "a" = Except.ok
      ⟨"a", "first", 1,
        (if unitFuture.runningQ then "running"
          else if unitFuture.doneQ then "finished"
          else if unitFuture.cancelledQ then "cancelled" else "pending"),
        (if unitFuture.runningQ then some 202 else none)⟩ ∧
    ∀ r, _get_task_response smallBuf "a" = Except.ok r →
      (r.code = some 202 ↔ r.state = "running")) :=
  ⟨rfl,
    status_projection_precedence Unit smallBuf "a"
      ⟨"a", "first", unitFuture, none, 1⟩ rfl⟩

/-- C5: for every interleaving of submissions the dashboard filter keeps
exactly the entries whose cookie equals the caller's and whose id's last
character is the domain tag, as a sublist of the buffer (insertion order),
and the two dashboards render exactly these lists reversed, with tags 'e'
and 'h'. -/
theorem dashboard_filter_exact (V : Type) (buf : Buffer V)
    (user : Option String) (tag : Char) :
    (∀ p : String × CalculationTask V,
      p ∈ dashboardFiltered buf user tag ↔
        (p ∈ buf ∧ p.2.cookie = user ∧ lastChar p.1 = some tag)) ∧
    (dashboardFiltered buf user tag).Sublist buf ∧
    DashboardHandler.get buf user =
      ((dashboardFiltered buf user 'e').map
        (fun p => _get_task_response buf p.1)).reverse ∧
    DashboardHSTHandler.get buf user =
      ((dashboardFiltered buf user 'h').map
        (fun p => _get_task_response_hst buf p.1)).reverse := by
  refine ⟨?_, List.filter_sublist _, rfl, rfl⟩
  intro p
  simp [dashboardFiltered, List.mem_filter, and_assoc]

/-- Witness for C5: the membership characterization at a concrete entry of
a concrete registry, whose id carries tag 'e' and whose cookie matches. -/
theorem dashboard_filter_exact_witness :
    ("fe", (⟨"fe", "boom", failedFuture, none, 1⟩ : CalculationTask Unit)) ∈
        dashboardFiltered failedBuf none 'e' ↔
      (("fe", (⟨"fe", "boom", failedFuture, none, 1⟩ : CalculationTask Unit))
          ∈ failedBuf ∧
        (⟨"fe", "boom", failedFuture, none, 1⟩ :
          CalculationTask Unit).cookie = none ∧
        lastChar "fe" = some 'e') :=
  (dashboard_filter_exact Unit failedBuf none 'e').1
    ("fe", ⟨"fe", "boom", failedFuture, none, 1⟩)

/-- C7: when the compute function raised, retrieving the job's result via
`_get_task_result` propagates the stored error with its kind and message
intact, and the outcome is the error itself — never a silent success. -/
theorem result_propagates_error (V : Type) (buf : Buffer V) (id : String)
    (ct : CalculationTask V) (e : PyErr)
    (h1 : odGet buf id = some ct)
    (h2 : ct.task.phase = Phase.finishedPh (Except.error e)) :
    _get_task_result buf id = Except.error ⟨e.kind, e.msg⟩ ∧
    (_get_task_result buf id).isOk = false := by
  have hres : _get_task_result buf id = Except.error e := by
    simp [_get_task_result, h1, Future.result, h2]
  constructor
  · rw [hres]
  · rw [hres]
    rfl

/-- Witness for C7: `ValueError("bad target")` propagates verbatim. -/
theorem result_propagates_error_witness :
    (odGet failedBuf "fe" = some ⟨"fe", "boom", failedFuture, none, 1⟩ ∧
      failedFuture.phase =
        Phase.finishedPh (Except.error ⟨"ValueError", "bad target"⟩)) ∧
    (_get_task_result failedBuf "fe" =
        Except.error ⟨"ValueError", "bad target"⟩ ∧
      (_get_task_result failedBuf "fe").isOk = false) :=
  ⟨⟨rfl, rfl⟩,
    result_propagates_error Unit failedBuf "fe"
      ⟨"fe", "boom", failedFuture, none, 1⟩ ⟨"ValueError", "bad target"⟩
      rfl rfl⟩

/-- C8: on a completed job result() is idempotent: the first call does not
execute the compute function, a second sequential call returns the identical
outcome, leaves the handle unchanged, and performs no re-execution. -/
theorem result_idempotent (V : Type) (f : Future V) (h : f.doneQ = true) :
    ((f.resultCall).2.1.resultCall).1 = (f.resultCall).1 ∧
    (f.resultCall).2.2 = false ∧
    ((f.resultCall).2.1.resultCall).2.2 = false ∧
    (f.resultCall).2.1 = f := by
  obtain ⟨c, ph⟩ := f
  cases ph with
  | pendingPh => simp [Future.doneQ] at h
  | runningPh => simp [Future.doneQ] at h
  | finishedPh o => exact ⟨rfl, rfl, rfl, rfl⟩
  | cancelledPh => exact ⟨rfl, rfl, rfl, rfl⟩

/-- Witness for C8: the completed (raised) future. -/
theorem result_idempotent_witness :
    failedFuture.doneQ = true ∧
    (((failedFuture.resultCall).2.1.resultCall).1 =
        (failedFuture.resultCall).1 ∧
      (failedFuture.resultCall).2.2 = false ∧
      ((failedFuture.resultCall).2.1.resultCall).2.2 = false ∧
      (failedFuture.resultCall).2.1 = failedFuture) :=
  ⟨rfl, result_idempotent Unit failedFuture rfl⟩

/-- C9 counterexample: the HST results view (`CalculationViewHSTHandler.get`)
performs no sweep — after it completes for job id "abh", the temp directory
still lists "abhplanet.txt", whose name contains "abh". -/
theorem hst_view_leaves_artifacts :
    "abhplanet.txt" ∈ CalculationViewHSTHandler.get ["abhplanet.txt"] "abh" ∧
    pyFindIn "abhplanet.txt" "abh" = true := by
  constructor
  · simp [CalculationViewHSTHandler.get]
  · rfl

/-- C9 (amended): after a download completes — and likewise after the JWST
results view completes — the temp directory holds no file whose name
contains the job id; the HST results view runs no sweep and returns the
directory unchanged. -/
theorem artifact_sweep_after_download (files : List String) (id : String) :
    (∀ f ∈ CalculationDownloadHandler.get files id, pyFindIn f id = false) ∧
    (∀ f ∈ CalculationViewHandler.get files id, pyFindIn f id = false) ∧
    CalculationViewHSTHandler.get files id = files := by
  refine ⟨?_, ?_, rfl⟩
  · intro f hf
    simp only [CalculationDownloadHandler.get, sweepFiles] at hf
    have hcond := (List.mem_filter.1 hf).2
    simpa using hcond
  · intro f hf
    simp only [CalculationViewHandler.get, sweepFiles] at hf
    have hcond := (List.mem_filter.1 hf).2
    simpa using hcond

/-- Witness for C9 (amended): a concrete temp directory and job id. -/
theorem artifact_sweep_after_download_witness :
    (∀ f ∈ CalculationDownloadHandler.get ["abeplanet.txt", "other.txt"] "abe",
        pyFindIn f "abe" = false) ∧
    (∀ f ∈ CalculationViewHandler.get ["abeplanet.txt", "other.txt"] "abe",
        pyFindIn f "abe" = false) ∧
    CalculationViewHSTHandler.get ["abeplanet.txt", "other.txt"] "abe" =
      ["abeplanet.txt", "other.txt"] :=
  artifact_sweep_after_download ["abeplanet.txt", "other.txt"] "abe"

/-- C10: the projected state is always one of running / finished /
cancelled / pending — "failed" is unreachable — in both the JWST and HST
projections; a job whose compute function raised reports "finished" once
its handle is done, and a result() call leaves the handle's phase (hence
the projection) unchanged. -/
theorem status_state_range (V : Type) (buf : Buffer V) (id : String) :
    (∀ r, (_get_task_response buf id = Except.ok r ∨
        _get_task_response_hst buf id = Except.ok r) →
      (r.state = "running" ∨ r.state = "finished" ∨ r.state = "cancelled" ∨
        r.state = "pending") ∧ r.state ≠ "failed") ∧
    (∀ (ct : CalculationTask V) (e : PyErr), odGet buf id = some ct →
      ct.task.phase = Phase.finishedPh (Except.error e) →
      _get_task_response buf id =
        Except.ok ⟨id, ct.name, ct.count, "finished", none⟩ ∧
      ((ct.task.resultCall).2.1).phase = ct.task.phase) := by
  constructor
  · intro r h
    have h' : _get_task_response buf id = Except.ok r := by
      rcases h with h | h
      · exact h
      · exact h
    rcases hg : odGet buf id with _ | ct
    · simp [_get_task_response, hg] at h'
    · simp only [_get_task_response, hg] at h'
      rcases hr : ct.task.runningQ with _ | _ <;>
        rcases hd : ct.task.doneQ with _ | _ <;>
          rcases hc : ct.task.cancelledQ with _ | _ <;>
            simp [hr, hd, hc] at h' <;> subst h' <;> simp
  · intro ct e h1 h2
    constructor
    · simp [_get_task_response, h1, Future.runningQ, Future.doneQ, h2]
    · simp [Future.resultCall, h2]

/-- Witness for C10: the registry with a raised-and-done job. -/
theorem status_state_range_witness :
    (odGet failedBuf "fe" = some ⟨"fe", "boom", failedFuture, none, 1⟩ ∧
      failedFuture.phase =
        Phase.finishedPh (Except.error ⟨"ValueError", "bad target"⟩)) ∧
    (_get_task_response failedBuf "fe" =
        Except.ok ⟨"fe", "boom", 1, "finished", none⟩ ∧
      ((failedFuture.resultCall).2.1).phase = failedFuture.phase) :=
  ⟨⟨rfl, rfl⟩,
    (status_state_range Unit failedBuf "fe").2
      ⟨"fe", "boom", failedFuture, none, 1⟩ ⟨"ValueError", "bad target"⟩
      rfl rfl⟩

end PandexoEngine
